import Mathlib

/-!
Verification development for the Polymarket BTC 15-minute trading bot.

Each section shallowly embeds one source module of the repository:
pure functions become Lean functions, stateful methods become explicit
state-passing functions, JavaScript numbers are modelled as rationals,
fallible external calls are passed in as `Except` or `Option` oracles.
Wall-clock values (`Date.now()`, `new Date().toDateString()`) are passed
explicitly as parameters.
-/

/- ------------------------------------------------------------------
Safety ledger, from src/safety.js.
The JS class fields become a record; methods that mutate `this` return
the updated record.  `new Date().toDateString()` is passed in as the
`today` string.  Activity-log side effects are dropped (write-only).
------------------------------------------------------------------ -/

namespace Safety

structure State where
  dailyLossLimit : ℚ
  maxTradeSize : ℚ
  maxDailyLosses : Nat
  killSwitch : Bool
  dailyLoss : ℚ
  dailySpent : ℚ
  dailyTradeCount : Nat
  dailyWinCount : Nat
  dailyLossCount : Nat
  lastResetDate : String
  tradedWindows : List String
deriving DecidableEq

structure CanTradeResult where
  allowed : Bool
  reason : String
deriving DecidableEq

def resetDailyIfNeeded (today : String) (s : State) : State :=
  if today ≠ s.lastResetDate then
    { s with dailyLoss := 0, dailySpent := 0, dailyTradeCount := 0,
             dailyWinCount := 0, dailyLossCount := 0, tradedWindows := [],
             lastResetDate := today }
  else s

/-- Port of canTrade: calls resetDailyIfNeeded first, then the three
deny branches in source order.  The numeric toFixed formatting inside
the reason strings is abstracted by toString. -/
def canTrade (today : String) (s : State) : State × CanTradeResult :=
  let s1 := resetDailyIfNeeded today s
  if s1.killSwitch then
    (s1, { allowed := false, reason := "Kill switch is ON - trading stopped" })
  else if s1.dailyLossLimit ≤ s1.dailyLoss then
    (s1, { allowed := false,
           reason := "Daily loss limit reached: $" ++ toString s1.dailyLoss
             ++ " / $" ++ toString s1.dailyLossLimit })
  else if s1.maxDailyLosses ≤ s1.dailyLossCount then
    (s1, { allowed := false,
           reason := "Max daily losing trades reached: " ++ toString s1.dailyLossCount
             ++ " / " ++ toString s1.maxDailyLosses
             ++ " losses. Bot stops to protect your money." })
  else
    (s1, { allowed := true, reason := "All checks passed" })

/-- Port of recordLoss: bumps dailyLoss and dailyLossCount, then calls
canTrade (for its log message), whose resetDailyIfNeeded is the only
state effect of that inner call. -/
def recordLoss (today : String) (amount : ℚ) (s : State) : State :=
  let s1 := { s with dailyLoss := s.dailyLoss + |amount|,
                     dailyLossCount := s.dailyLossCount + 1 }
  (canTrade today s1).1

end Safety

/-- C1: on any fixed day (today equal to the ledger reset date), recordLoss
increases dailyLossCount by exactly one; once dailyLossCount has reached
maxDailyLosses, canTrade answers allowed = false; the same-day reset is a
no-op (so the counter persists between calls), and a day change resets the
counter to zero. -/
theorem claim_C1_loss_count_gate (s : Safety.State) (today : String) (amount : ℚ) :
    (today = s.lastResetDate →
      (Safety.recordLoss today amount s).dailyLossCount = s.dailyLossCount + 1) ∧
    (today = s.lastResetDate → s.maxDailyLosses ≤ s.dailyLossCount →
      ((Safety.canTrade today s).2).allowed = false) ∧
    (today = s.lastResetDate → Safety.resetDailyIfNeeded today s = s) ∧
    (today ≠ s.lastResetDate →
      (Safety.resetDailyIfNeeded today s).dailyLossCount = 0 ∧
      (Safety.resetDailyIfNeeded today s).lastResetDate = today) := by
  refine ⟨?_, ?_, ?_, ?_⟩
  · intro h
    simp [Safety.recordLoss, Safety.canTrade, Safety.resetDailyIfNeeded, h]
    split_ifs <;> simp
  · intro h hcnt
    simp [Safety.canTrade, Safety.resetDailyIfNeeded, h]
    split_ifs <;> simp_all
  · intro h
    simp [Safety.resetDailyIfNeeded, h]
  · intro h
    simp [Safety.resetDailyIfNeeded, h]

def c1State : Safety.State :=
  { dailyLossLimit := 15, maxTradeSize := 5, maxDailyLosses := 6,
    killSwitch := false, dailyLoss := 0, dailySpent := 0,
    dailyTradeCount := 0, dailyWinCount := 0, dailyLossCount := 6,
    lastResetDate := "Mon Jan 01 2026", tradedWindows := [] }

/-- Witness for C1 at a concrete ledger with six recorded losses. -/
theorem claim_C1_loss_count_gate_witness :
    (Safety.recordLoss "Mon Jan 01 2026" 2 c1State).dailyLossCount = 7 ∧
    ((Safety.canTrade "Mon Jan 01 2026" c1State).2).allowed = false := by
  have h := claim_C1_loss_count_gate c1State "Mon Jan 01 2026" 2
  refine ⟨?_, h.2.1 rfl (by decide)⟩
  have h1 := h.1 rfl
  simpa [c1State] using h1

/- ------------------------------------------------------------------
Reference-price feed, from src/krakenFeed.js.
priceHistory is the bounded sample list (appended in arrival order, so
times are non-decreasing); getChangeFromAgo is the inner helper of
getPriceContext.  Date.now() is the explicit parameter now (ms).
------------------------------------------------------------------ -/

namespace Feed

structure Sample where
  price : ℚ
  bid : ℚ
  ask : ℚ
  time : ℤ
deriving DecidableEq

structure Change where
  priceAtTime : ℚ
  change : ℚ
  changePct : ℚ
deriving DecidableEq

/-- Port of the getChangeFromAgo closure: filter the history to samples at
or before the cutoff and take the last element of the filtered array
(older[older.length - 1]), or null when the filter is empty. -/
def getChangeFromAgo (now : ℤ) (history : List Sample) (currentPrice : ℚ)
    (secondsAgo : ℤ) : Option Change :=
  let cutoff := now - secondsAgo * 1000
  let older := history.filter (fun p => p.time ≤ cutoff)
  match older.getLast? with
  | none => none
  | some ref =>
      some { priceAtTime := ref.price, change := currentPrice - ref.price,
             changePct := (currentPrice - ref.price) / ref.price * 100 }

theorem pairwise_time_getLast_max :
    ∀ (l : List Sample), l.Pairwise (fun a b => a.time ≤ b.time) →
      ∀ x, l.getLast? = some x → ∀ a ∈ l, a.time ≤ x.time := by
  intro l
  induction l with
  | nil => intro _ x hx; simp at hx
  | cons a as ih =>
      intro hp x hx b hb
      cases as with
      | nil =>
          simp at hx
          subst hx
          simp at hb
          subst hb
          exact le_refl _
      | cons c cs =>
          rw [List.getLast?_cons_cons] at hx
          have hmem : x ∈ c :: cs := by
            obtain ⟨hne, hxeq⟩ := List.mem_getLast?_eq_getLast (Option.mem_def.mpr hx)
            rw [hxeq]
            exact List.getLast_mem hne
          rcases List.mem_cons.mp hb with rfl | hb2
          · exact le_trans (le_refl _) ((List.pairwise_cons.mp hp).1 x hmem)
          · exact ih (List.pairwise_cons.mp hp).2 x hx b hb2

end Feed

def c2s1 : Feed.Sample := { price := 10, bid := 10, ask := 10, time := 0 }

def c2s2 : Feed.Sample := { price := 20, bid := 20, ask := 20, time := 5000 }

/-- C2 counterexample: at now = 100000 ms with current price 30 and two
stored samples (price 10 at t = 0 and price 20 at t = 5000), both at or
before the 60 s cutoff 40000, the code reports change = 30 - 20 = 10,
taking the newest qualifying sample, while the claim (oldest sample with
time at or before now - W, here the price-10 sample) demands 30 - 10 = 20. -/
theorem claim_C2_change_window_counterexample :
    (Feed.getChangeFromAgo 100000 [c2s1, c2s2] 30 60).map (fun c => c.change) =
      some 10 ∧
    c2s1.time ≤ 100000 - 60 * 1000 ∧
    (∀ q ∈ [c2s1, c2s2], c2s1.time ≤ q.time) ∧
    (30 : ℚ) - c2s1.price = 20 ∧ (10 : ℚ) ≠ 20 := by
  refine ⟨?_, by decide, by decide, by norm_num [c2s1], by norm_num⟩
  simp [Feed.getChangeFromAgo, c2s1, c2s2]
  norm_num

/-- C2 (amended): for every window, when at least one stored sample has
time at or before now - W (boundary included), getChangeFromAgo reports the
current price minus the price of the newest such sample (the one stored
last, which has maximal time among the qualifying samples, the history
being time-sorted); otherwise it reports null. -/
theorem claim_C2_change_window (now secondsAgo : ℤ) (currentPrice : ℚ)
    (history : List Feed.Sample)
    (hs : history.Pairwise (fun a b => a.time ≤ b.time)) :
    ((∀ p ∈ history, ¬ (p.time ≤ now - secondsAgo * 1000)) →
       Feed.getChangeFromAgo now history currentPrice secondsAgo = none) ∧
    ((∃ p ∈ history, p.time ≤ now - secondsAgo * 1000) →
       ∃ ref, ref ∈ history ∧ ref.time ≤ now - secondsAgo * 1000 ∧
         (∀ q ∈ history, q.time ≤ now - secondsAgo * 1000 → q.time ≤ ref.time) ∧
         Feed.getChangeFromAgo now history currentPrice secondsAgo =
           some { priceAtTime := ref.price, change := currentPrice - ref.price,
                  changePct := (currentPrice - ref.price) / ref.price * 100 }) := by
  constructor
  · intro hnone
    have hfil : history.filter
        (fun p => decide (p.time ≤ now - secondsAgo * 1000)) = [] := by
      rw [List.filter_eq_nil_iff]
      intro a ha
      simpa using hnone a ha
    simp [Feed.getChangeFromAgo, hfil]
  · rintro ⟨p, hp, hple⟩
    set cutoff := now - secondsAgo * 1000 with hc
    set older := history.filter (fun q => decide (q.time ≤ cutoff)) with ho
    have hpo : p ∈ older := by
      rw [ho]
      exact List.mem_filter.mpr ⟨hp, by simpa using hple⟩
    have hne : older ≠ [] := List.ne_nil_of_mem hpo
    obtain ⟨ref, href⟩ := Option.ne_none_iff_exists'.mp
      (mt List.getLast?_eq_none_iff.mp hne)
    have hrefo : ref ∈ older := by
      obtain ⟨h0, hxeq⟩ := List.mem_getLast?_eq_getLast (Option.mem_def.mpr href)
      rw [hxeq]
      exact List.getLast_mem h0
    have hrefh : ref ∈ history := (List.mem_filter.mp hrefo).1
    have hrefle : ref.time ≤ cutoff := by
      have := (List.mem_filter.mp hrefo).2
      simpa using this
    refine ⟨ref, hrefh, hrefle, ?_, ?_⟩
    · intro q hq hqle
      have hqo : q ∈ older := by
        rw [ho]
        exact List.mem_filter.mpr ⟨hq, by simpa using hqle⟩
      exact Feed.pairwise_time_getLast_max older (hs.filter _) ref href q hqo
    · simp only [Feed.getChangeFromAgo]
      rw [← hc, ← ho, href]

/-- Witness for amended C2: the newest-at-or-before-cutoff sample (price 20)
is the reference at now = 100000, and an early now yields null. -/
theorem claim_C2_change_window_witness :
    Feed.getChangeFromAgo 100000 [c2s1, c2s2] 30 60 =
      some { priceAtTime := 20, change := 10, changePct := 10 / 20 * 100 } ∧
    Feed.getChangeFromAgo 0 [c2s1, c2s2] 30 60 = none := by
  constructor
  · obtain ⟨ref, hmem, hle, hmax, heq⟩ :=
      (claim_C2_change_window 100000 60 30 [c2s1, c2s2] (by decide)).2
        ⟨c2s1, by simp, by decide⟩
    have hr : ref = c2s1 ∨ ref = c2s2 := by simpa using hmem
    rcases hr with rfl | rfl
    · exact absurd (hmax c2s2 (by simp) (by decide)) (by decide)
    · rw [heq]
      norm_num [c2s2]
  · exact (claim_C2_change_window 0 60 30 [c2s1, c2s2] (by decide)).1 (by decide)

/- ------------------------------------------------------------------
Spike detector, from the spikeDetector module bundled in src/trader.js.
detect() reads the feed context; here the context is passed in, reduced
to the fields detect uses: availability and the parsed dollar move of
each window (parseFloat of the toFixed(2) dollars string).
------------------------------------------------------------------ -/

namespace Spike

def SPIKE_THRESHOLD : ℚ := 30

def MIN_SPIKE_SPEED : ℚ := 15

structure PriceCtx where
  available : Bool
  currentPrice : ℚ
  change1m : Option ℚ
  change3m : Option ℚ
  change5m : Option ℚ
deriving DecidableEq

structure Cand where
  windowLabel : String
  moveDollars : ℚ
  absMoveD : ℚ
  speed : ℚ
  direction : String
  action : String
deriving DecidableEq

structure Result where
  detected : Bool
  action : Option String
  confidence : Option String
  magnitude : Option ℚ
  speed : Option ℚ
deriving DecidableEq

/-- One iteration of the window loop of detect: skip a null window, skip a
window under the thresholds, otherwise keep the faster spike (strict
speed > bestSpike.speed to replace). -/
def stepWindow (best : Option Cand) (w : String × ℚ × Option ℚ) : Option Cand :=
  match w.2.2 with
  | none => best
  | some moveDollars =>
      let absMoveD := |moveDollars|
      let speed := absMoveD / (w.2.1 / 60)
      if SPIKE_THRESHOLD ≤ absMoveD ∧ MIN_SPIKE_SPEED ≤ speed then
        match best with
        | none =>
            some { windowLabel := w.1, moveDollars := moveDollars,
                   absMoveD := absMoveD, speed := speed,
                   direction := if 0 < moveDollars then "UP" else "DOWN",
                   action := if 0 < moveDollars then "BUY_YES" else "BUY_NO" }
        | some b =>
            if b.speed < speed then
              some { windowLabel := w.1, moveDollars := moveDollars,
                     absMoveD := absMoveD, speed := speed,
                     direction := if 0 < moveDollars then "UP" else "DOWN",
                     action := if 0 < moveDollars then "BUY_YES" else "BUY_NO" }
            else some b
      else best

/-- The windows array of detect: 1m/60s, 3m/180s, 5m/300s. -/
def bestSpikeOf (ctx : PriceCtx) : Option Cand :=
  [("1m", (60 : ℚ), ctx.change1m), ("3m", (180 : ℚ), ctx.change3m),
   ("5m", (300 : ℚ), ctx.change5m)].foldl stepWindow none

/-- Port of detect(): unavailable context and no qualifying window give
detected = false; a best spike gives detected = true with its action and
the speed-tiered confidence. -/
def detect (ctx : PriceCtx) : Result :=
  if !ctx.available then
    { detected := false, action := none, confidence := none,
      magnitude := none, speed := none }
  else
    match bestSpikeOf ctx with
    | some b =>
        { detected := true, action := some b.action,
          confidence := some (if (60 : ℚ) ≤ b.speed then "HIGH"
            else if (30 : ℚ) ≤ b.speed then "HIGH" else "MEDIUM"),
          magnitude := some b.absMoveD, speed := some b.speed }
    | none =>
        let change1mVal := match ctx.change1m with | some d => |d| | none => 0
        { detected := false, action := none, confidence := none,
          magnitude := some change1mVal, speed := some change1mVal }

/-- A window on which no spike fires: null data, or move under the dollar
threshold, or speed under the minimum. -/
def windowFails (secs : ℚ) (data : Option ℚ) : Prop :=
  ∀ d, data = some d → |d| < SPIKE_THRESHOLD ∨ |d| / (secs / 60) < MIN_SPIKE_SPEED

/-- The action stored in a candidate follows the sign of its move. -/
def CandOk (b : Cand) : Prop :=
  b.action = (if 0 < b.moveDollars then "BUY_YES" else "BUY_NO")

theorem stepWindow_fails (best : Option Cand) (lab : String) (secs : ℚ)
    (data : Option ℚ) (hf : windowFails secs data) :
    stepWindow best (lab, secs, data) = best := by
  cases data with
  | none => rfl
  | some d =>
      have hd := hf d rfl
      simp only [stepWindow]
      rw [if_neg]
      push_neg
      intro habs
      rcases hd with h | h
      · exact absurd habs (not_le.mpr h)
      · exact h

theorem stepWindow_ok (best : Option Cand) (w : String × ℚ × Option ℚ)
    (hb : ∀ b, best = some b → CandOk b) :
    ∀ b2, stepWindow best w = some b2 → CandOk b2 := by
  intro b2 h2
  rcases w with ⟨lab, secs, data⟩
  cases data with
  | none => exact hb b2 h2
  | some d =>
      cases best with
      | none =>
          simp only [stepWindow] at h2
          by_cases hcond : SPIKE_THRESHOLD ≤ |d| ∧ MIN_SPIKE_SPEED ≤ |d| / (secs / 60)
          · rw [if_pos hcond] at h2
            obtain rfl := Option.some_inj.mp h2
            simp [CandOk]
          · rw [if_neg hcond] at h2
            exact absurd h2 (by simp)
      | some b =>
          simp only [stepWindow] at h2
          by_cases hcond : SPIKE_THRESHOLD ≤ |d| ∧ MIN_SPIKE_SPEED ≤ |d| / (secs / 60)
          · rw [if_pos hcond] at h2
            by_cases hsp : b.speed < |d| / (secs / 60)
            · rw [if_pos hsp] at h2
              obtain rfl := Option.some_inj.mp h2
              simp [CandOk]
            · rw [if_neg hsp] at h2
              obtain rfl := Option.some_inj.mp h2
              exact hb b rfl
          · rw [if_neg hcond] at h2
            obtain rfl := Option.some_inj.mp h2
            exact hb b rfl

theorem foldl_stepWindow_ok (ws : List (String × ℚ × Option ℚ)) :
    ∀ best, (∀ b, best = some b → CandOk b) →
      ∀ b2, ws.foldl stepWindow best = some b2 → CandOk b2 := by
  induction ws with
  | nil => intro best hb b2 h2; exact hb b2 h2
  | cons w rest ih =>
      intro best hb b2 h2
      exact ih (stepWindow best w) (stepWindow_ok best w hb) b2 h2

end Spike

/-- C3: with the default thresholds (30 dollars, 15 dollars per minute), a
feed context in which every window of 60, 180, 300 seconds moves less than
30 dollars or slower than 15 dollars per minute yields detected = false;
and whenever detected = true, the action is BUY_YES for a positive best
move and BUY_NO for a negative one, with confidence HIGH exactly when the
best speed is at least 30. -/
theorem claim_C3_spike_detector (ctx : Spike.PriceCtx) :
    ((Spike.windowFails 60 ctx.change1m ∧ Spike.windowFails 180 ctx.change3m ∧
        Spike.windowFails 300 ctx.change5m) →
      (Spike.detect ctx).detected = false) ∧
    ((Spike.detect ctx).detected = true →
      ∃ b, Spike.bestSpikeOf ctx = some b ∧
        (Spike.detect ctx).action =
          some (if 0 < b.moveDollars then "BUY_YES" else "BUY_NO") ∧
        ((Spike.detect ctx).confidence = some "HIGH" ↔ 30 ≤ b.speed)) := by
  constructor
  · rintro ⟨h1, h3, h5⟩
    have hbs : Spike.bestSpikeOf ctx = none := by
      simp only [Spike.bestSpikeOf, List.foldl]
      rw [Spike.stepWindow_fails _ _ _ _ h1, Spike.stepWindow_fails _ _ _ _ h3,
        Spike.stepWindow_fails _ _ _ _ h5]
    by_cases ha : ctx.available
    · simp [Spike.detect, ha, hbs]
    · simp [Spike.detect, ha]
  · intro hdet
    by_cases ha : ctx.available
    · cases hbs : Spike.bestSpikeOf ctx with
      | none => simp [Spike.detect, ha, hbs] at hdet
      | some b =>
          have hok : Spike.CandOk b :=
            Spike.foldl_stepWindow_ok _ none (by intro b h; cases h) b hbs
          have hdetect : Spike.detect ctx =
              { detected := true, action := some b.action,
                confidence := some (if (60 : ℚ) ≤ b.speed then "HIGH"
                  else if (30 : ℚ) ≤ b.speed then "HIGH" else "MEDIUM"),
                magnitude := some b.absMoveD, speed := some b.speed } := by
            simp [Spike.detect, ha, hbs]
          refine ⟨b, rfl, ?_, ?_⟩
          · rw [hdetect]
            simp only [Spike.CandOk] at hok
            rw [hok]
          · rw [hdetect]
            simp only
            constructor
            · intro hc
              by_contra hlt
              push_neg at hlt
              have h60 : ¬ ((60 : ℚ) ≤ b.speed) := by linarith
              have h30 : ¬ ((30 : ℚ) ≤ b.speed) := not_le.mpr hlt
              rw [if_neg h60, if_neg h30] at hc
              simp at hc
            · intro hsp
              by_cases h60 : (60 : ℚ) ≤ b.speed
              · rw [if_pos h60]
              · rw [if_neg h60, if_pos hsp]
    · simp [Spike.detect, ha] at hdet

def c3ctxSpike : Spike.PriceCtx :=
  { available := true, currentPrice := 100000, change1m := some 50,
    change3m := none, change5m := none }

def c3ctxQuiet : Spike.PriceCtx :=
  { available := true, currentPrice := 100000, change1m := some 10,
    change3m := some (-20), change5m := none }

/-- Witness for C3: a quiet context (moves 10 and -20 dollars) yields no
spike, and a 50-dollar one-minute move yields BUY_YES at HIGH confidence. -/
theorem claim_C3_spike_detector_witness :
    (Spike.detect c3ctxQuiet).detected = false ∧
    (Spike.detect c3ctxSpike).action = some "BUY_YES" ∧
    (Spike.detect c3ctxSpike).confidence = some "HIGH" := by
  have hquiet := (claim_C3_spike_detector c3ctxQuiet).1
  have hbs : Spike.bestSpikeOf c3ctxSpike = some
      { windowLabel := "1m", moveDollars := 50, absMoveD := 50, speed := 50,
        direction := "UP", action := "BUY_YES" } := by
    simp only [Spike.bestSpikeOf, Spike.stepWindow, c3ctxSpike, List.foldl]
    norm_num [Spike.SPIKE_THRESHOLD, Spike.MIN_SPIKE_SPEED]
  have hav : c3ctxSpike.available = true := rfl
  have hdet : (Spike.detect c3ctxSpike).detected = true := by
    simp [Spike.detect, hbs, hav]
  obtain ⟨b, hb, hact, hconf⟩ := (claim_C3_spike_detector c3ctxSpike).2 hdet
  rw [hbs] at hb
  obtain rfl := Option.some_inj.mp hb
  refine ⟨hquiet ⟨?_, ?_, ?_⟩, ?_, ?_⟩
  · intro d hd
    simp [c3ctxQuiet] at hd
    subst hd
    left
    norm_num [Spike.SPIKE_THRESHOLD]
  · intro d hd
    simp [c3ctxQuiet] at hd
    subst hd
    left
    norm_num [Spike.SPIKE_THRESHOLD]
  · intro d hd
    simp [c3ctxQuiet] at hd
  · norm_num at hact
    exact hact
  · exact hconf.mpr (by norm_num)

/- ------------------------------------------------------------------
Market discovery, from the scanner module bundled in src/trader.js.
Candidates are the per-slug fetch results that survived the early guards
(active, not closed, raw minutesLeft > 0, two token ids); minutesLeft is
the Math.round of the remaining minutes, so it can round down to 1 or 0.
The single configured coin makes bestPerCoin a fold over the candidate
array in arrival order.
------------------------------------------------------------------ -/

namespace Scanner

structure MarketRec where
  conditionId : String
  question : String
  coin : String
  minutesLeft : ℤ
  negRisk : Bool
deriving DecidableEq

/-- One iteration of the bestPerCoin loop: the first candidate is taken
unconditionally; a later one replaces the current holder only when both
strictly closer to expiry and over one minute out. -/
def bestStep (acc : Option MarketRec) (m : MarketRec) : Option MarketRec :=
  match acc with
  | none => some m
  | some existing =>
      if m.minutesLeft < existing.minutesLeft ∧ 1 < m.minutesLeft then some m
      else some existing

def selectBest (ms : List MarketRec) : Option MarketRec :=
  ms.foldl bestStep none

/-- The final filter of scanMarkets: minutesLeft between 3 and 12. -/
def scanFinal (ms : List MarketRec) : List MarketRec :=
  (selectBest ms).toList.filter (fun m => 3 ≤ m.minutesLeft ∧ m.minutesLeft ≤ 12)

theorem foldl_bestStep_min (ms : List MarketRec) :
    ∀ e : MarketRec, (∀ m ∈ ms, 1 < m.minutesLeft) →
      ∃ b, ms.foldl bestStep (some e) = some b ∧ (b = e ∨ b ∈ ms) ∧
        b.minutesLeft ≤ e.minutesLeft ∧ ∀ m ∈ ms, b.minutesLeft ≤ m.minutesLeft := by
  induction ms with
  | nil => intro e _; exact ⟨e, rfl, Or.inl rfl, le_refl _, by simp⟩
  | cons m rest ih =>
      intro e hall
      have hm : 1 < m.minutesLeft := hall m (by simp)
      by_cases hrep : m.minutesLeft < e.minutesLeft ∧ 1 < m.minutesLeft
      · obtain ⟨b, hb, hbm, hble, hbmin⟩ :=
          ih m (fun x hx => hall x (List.mem_cons_of_mem _ hx))
        refine ⟨b, ?_, ?_, le_trans hble (le_of_lt hrep.1), ?_⟩
        · simpa [List.foldl, bestStep, if_pos hrep] using hb
        · rcases hbm with rfl | h
          · exact Or.inr (by simp)
          · exact Or.inr (List.mem_cons_of_mem _ h)
        · intro x hx
          rcases List.mem_cons.mp hx with rfl | hx2
          · exact hble
          · exact hbmin x hx2
      · have hle : e.minutesLeft ≤ m.minutesLeft := by
          rcases not_and_or.mp hrep with h | h
          · exact le_of_not_lt h
          · exact absurd hm h
        obtain ⟨b, hb, hbm, hble, hbmin⟩ :=
          ih e (fun x hx => hall x (List.mem_cons_of_mem _ hx))
        refine ⟨b, ?_, ?_, hble, ?_⟩
        · simpa [List.foldl, bestStep, if_neg hrep] using hb
        · rcases hbm with rfl | h
          · exact Or.inl rfl
          · exact Or.inr (List.mem_cons_of_mem _ h)
        · intro x hx
          rcases List.mem_cons.mp hx with rfl | hx2
          · exact le_trans hble hle
          · exact hbmin x hx2

end Scanner

/-- C7 (amended): scanMarkets returns zero or one record for the single
asset, every returned record has minutesLeft between 3 and 12 inclusive,
a sole candidate at 3 minutes is accepted while one at 2 is rejected, and
whenever every candidate has minutesLeft > 1 the retained candidate per
asset has the smallest minutesLeft; a first candidate with minutesLeft
at most 1 is however retained as-is and can block all later candidates. -/
theorem claim_C7_scan_market_selection (ms : List Scanner.MarketRec)
    (m0 : Scanner.MarketRec) :
    (Scanner.scanFinal ms).length ≤ 1 ∧
    (∀ m ∈ Scanner.scanFinal ms, 3 ≤ m.minutesLeft ∧ m.minutesLeft ≤ 12) ∧
    (m0.minutesLeft = 3 → Scanner.scanFinal [m0] = [m0]) ∧
    (m0.minutesLeft = 2 → Scanner.scanFinal [m0] = []) ∧
    ((∀ m ∈ ms, 1 < m.minutesLeft) → ∀ b, Scanner.selectBest ms = some b →
      b ∈ ms ∧ ∀ m ∈ ms, b.minutesLeft ≤ m.minutesLeft) := by
  refine ⟨?_, ?_, ?_, ?_, ?_⟩
  · cases h : Scanner.selectBest ms with
    | none => simp [Scanner.scanFinal, h]
    | some b =>
        simp only [Scanner.scanFinal, h, Option.toList]
        exact le_trans (List.length_filter_le _ _) (by simp)
  · intro m hm
    simp only [Scanner.scanFinal] at hm
    have := List.mem_filter.mp hm
    simpa using this.2
  · intro h3
    simp [Scanner.scanFinal, Scanner.selectBest, Scanner.bestStep, h3]
  · intro h2
    simp [Scanner.scanFinal, Scanner.selectBest, Scanner.bestStep, h2]
  · intro hall b hb
    cases ms with
    | nil => simp [Scanner.selectBest] at hb
    | cons m rest =>
        have hrest : ∀ x ∈ rest, 1 < x.minutesLeft :=
          fun x hx => hall x (List.mem_cons_of_mem _ hx)
        obtain ⟨b2, hb2, hbm, hble, hbmin⟩ := Scanner.foldl_bestStep_min rest m hrest
        have hsb : Scanner.selectBest (m :: rest) = some b2 := by
          simpa [Scanner.selectBest, List.foldl, Scanner.bestStep] using hb2
        rw [hb] at hsb
        obtain rfl := Option.some_inj.mp hsb
        constructor
        · rcases hbm with rfl | h
          · simp
          · exact List.mem_cons_of_mem _ h
        · intro x hx
          rcases List.mem_cons.mp hx with rfl | hx2
          · exact hble
          · exact hbmin x hx2

def c7early : Scanner.MarketRec :=
  { conditionId := "0xc1", question := "q1", coin := "BTC",
    minutesLeft := 1, negRisk := false }

def c7late : Scanner.MarketRec :=
  { conditionId := "0xc2", question := "q2", coin := "BTC",
    minutesLeft := 5, negRisk := false }

/-- C7 counterexample: with candidates at 1 and 5 minutes (in that order),
the loop retains the 1-minute one, although 5 is the smallest minutesLeft
greater than 1; the final filter then returns nothing, even though the
5-minute candidate sits inside the 3 to 12 band the claim promises to keep. -/
theorem claim_C7_scan_market_selection_counterexample :
    Scanner.selectBest [c7early, c7late] = some c7early ∧
    c7early.minutesLeft ≤ 1 ∧ 1 < c7late.minutesLeft ∧
    Scanner.scanFinal [c7early, c7late] = [] ∧
    3 ≤ c7late.minutesLeft ∧ c7late.minutesLeft ≤ 12 := by
  decide

def c7m3 : Scanner.MarketRec :=
  { conditionId := "0xc3", question := "q3", coin := "BTC",
    minutesLeft := 3, negRisk := false }

def c7m2 : Scanner.MarketRec :=
  { conditionId := "0xc4", question := "q4", coin := "BTC",
    minutesLeft := 2, negRisk := false }

/-- Witness for amended C7 at concrete candidates: 3 minutes accepted,
2 minutes rejected, and with candidates 5 and 3 the closest one wins. -/
theorem claim_C7_scan_market_selection_witness :
    Scanner.scanFinal [c7m3] = [c7m3] ∧
    Scanner.scanFinal [c7m2] = [] ∧
    (Scanner.scanFinal [c7late, c7m3]).length ≤ 1 ∧
    c7m3 ∈ ([c7late, c7m3] : List Scanner.MarketRec) ∧
    c7m3.minutesLeft ≤ c7late.minutesLeft := by
  have h1 := (claim_C7_scan_market_selection [c7m3] c7m3).2.2.1 rfl
  have h2 := (claim_C7_scan_market_selection [c7m2] c7m2).2.2.2.1 rfl
  have h3 := (claim_C7_scan_market_selection [c7late, c7m3] c7m3).1
  have h5 := (claim_C7_scan_market_selection [c7late, c7m3] c7m3).2.2.2.2
    (by decide) c7m3 (by decide)
  exact ⟨h1, h2, h3, h5.1, h5.2 c7late (by decide)⟩

/- ------------------------------------------------------------------
Order executor, from src/trader.js (executeTrade and placeOrder).
Price pick: token.price?.buy || token.price?.mid || 0.5, where the JS
or-chain also falls through on a numeric 0.  placeOrder then rounds the
price with Math.round(price * 100) / 100 and computes the share count
with parseFloat((amount / roundedPrice).toFixed(2)); toFixed rounds to
the nearest two decimals (ties up for the nonnegative operands here),
modelled by the floor of x * 100 + 1/2 over 100.
------------------------------------------------------------------ -/

namespace Executor

def jsRound (x : ℚ) : ℤ := ⌊x + 1 / 2⌋

def jsToFixed2 (x : ℚ) : ℚ := ((jsRound (x * 100) : ℤ) : ℚ) / 100

def jsOrQ (o : Option ℚ) (fallback : ℚ) : ℚ :=
  match o with
  | some v => if v = 0 then fallback else v
  | none => fallback

def executeTradePrice (buy mid : Option ℚ) : ℚ := jsOrQ buy (jsOrQ mid (1 / 2))

def placeOrderRoundedPrice (price : ℚ) : ℚ := ((jsRound (price * 100) : ℤ) : ℚ) / 100

def placeOrderSize (amount price : ℚ) : ℚ :=
  jsToFixed2 (amount / placeOrderRoundedPrice price)

/-- Definition written to the words of the spec (floor2: round down to two
decimal places), for comparison against the code above. -/
def floor2 (x : ℚ) : ℚ := ((⌊x * 100⌋ : ℤ) : ℚ) / 100

theorem jsToFixed2_near (x : ℚ) : |jsToFixed2 x - x| ≤ 1 / 200 := by
  have h1 : ((⌊x * 100 + 1 / 2⌋ : ℤ) : ℚ) ≤ x * 100 + 1 / 2 := Int.floor_le _
  have h2 : x * 100 + 1 / 2 - 1 < ((⌊x * 100 + 1 / 2⌋ : ℤ) : ℚ) :=
    Int.sub_one_lt_floor _
  have hval : jsToFixed2 x - x = (((⌊x * 100 + 1 / 2⌋ : ℤ) : ℚ) - x * 100) / 100 := by
    simp only [jsToFixed2, jsRound]
    ring
  rw [hval, abs_le]
  constructor <;> linarith

end Executor

/-- C8 (amended): the executor's share count is the quotient
sizeDollars / price rounded to the NEAREST two decimal places (ties up),
not rounded down, so it sits within 0.005 of the exact quotient; the
price is token.price.buy when present and nonzero, else token.price.mid
when present and nonzero, else 0.5, and it is rounded to the 0.01 tick
(to within half a tick). -/
theorem claim_C8_order_share_rounding (amount : ℚ) (buy mid : Option ℚ) :
    (Executor.placeOrderSize amount (Executor.executeTradePrice buy mid) =
      ((⌊amount / Executor.placeOrderRoundedPrice (Executor.executeTradePrice buy mid)
          * 100 + 1 / 2⌋ : ℤ) : ℚ) / 100) ∧
    |Executor.placeOrderSize amount (Executor.executeTradePrice buy mid) -
      amount / Executor.placeOrderRoundedPrice (Executor.executeTradePrice buy mid)|
        ≤ 1 / 200 ∧
    |Executor.placeOrderRoundedPrice (Executor.executeTradePrice buy mid) -
      Executor.executeTradePrice buy mid| ≤ 1 / 200 ∧
    (∀ b, buy = some b → b ≠ 0 → Executor.executeTradePrice buy mid = b) ∧
    (∀ m, buy = none → mid = some m → m ≠ 0 →
      Executor.executeTradePrice buy mid = m) ∧
    (buy = none → mid = none → Executor.executeTradePrice buy mid = 1 / 2) := by
  refine ⟨rfl, Executor.jsToFixed2_near _, ?_, ?_, ?_, ?_⟩
  · exact Executor.jsToFixed2_near _
  · intro b hb hb0
    simp [Executor.executeTradePrice, Executor.jsOrQ, hb, hb0]
  · intro m hb hm hm0
    simp [Executor.executeTradePrice, Executor.jsOrQ, hb, hm, hm0]
  · intro hb hm
    simp [Executor.executeTradePrice, Executor.jsOrQ, hb, hm]

/-- C8 counterexample: with sizeDollars = 5 and a buy price of 0.30 the
code submits 16.67 shares (toFixed rounds 16.666... up to the nearest
cent), while floor2(5 / 0.30) = 16.66 as the claim demands. -/
theorem claim_C8_order_share_rounding_counterexample :
    Executor.executeTradePrice (some (3 / 10)) none = 3 / 10 ∧
    Executor.placeOrderRoundedPrice (3 / 10) = 3 / 10 ∧
    Executor.placeOrderSize 5 (Executor.executeTradePrice (some (3 / 10)) none) =
      1667 / 100 ∧
    Executor.floor2 (5 / Executor.executeTradePrice (some (3 / 10)) none) =
      1666 / 100 ∧
    (1667 / 100 : ℚ) ≠ 1666 / 100 := by
  have hp : Executor.executeTradePrice (some (3 / 10)) none = 3 / 10 := by
    norm_num [Executor.executeTradePrice, Executor.jsOrQ]
  have hr : Executor.placeOrderRoundedPrice (3 / 10) = 3 / 10 := by
    norm_num [Executor.placeOrderRoundedPrice, Executor.jsRound]
  refine ⟨hp, hr, ?_, ?_, by norm_num⟩
  · rw [hp]
    simp only [Executor.placeOrderSize, hr, Executor.jsToFixed2, Executor.jsRound]
    rw [show (5 / (3 / 10) * 100 + 1 / 2 : ℚ) = 10003 / 6 by norm_num]
    rw [show ⌊(10003 / 6 : ℚ)⌋ = 1667 by
      rw [Int.floor_eq_iff]; norm_num]
    norm_num
  · rw [hp]
    simp only [Executor.floor2]
    rw [show (5 / (3 / 10) * 100 : ℚ) = 5000 / 3 by norm_num]
    rw [show ⌊(5000 / 3 : ℚ)⌋ = 1666 by
      rw [Int.floor_eq_iff]; norm_num]
    norm_num

/-- Witness for amended C8 at sizeDollars = 5 with buy price 0.30: the
chosen price is 0.30 (buy respected), the none/none fallback is 0.5, and
the submitted share count is within 0.005 of the exact quotient. -/
theorem claim_C8_order_share_rounding_witness :
    Executor.executeTradePrice (some (3 / 10)) none = 3 / 10 ∧
    Executor.executeTradePrice none none = 1 / 2 ∧
    |Executor.placeOrderSize 5 (Executor.executeTradePrice (some (3 / 10)) none) -
      5 / Executor.placeOrderRoundedPrice
        (Executor.executeTradePrice (some (3 / 10)) none)| ≤ 1 / 200 := by
  have h := claim_C8_order_share_rounding 5 (some (3 / 10)) none
  have h2 := claim_C8_order_share_rounding 5 none none
  exact ⟨h.2.2.2.1 (3 / 10) rfl (by norm_num), h2.2.2.2.2.2 rfl rfl, h.2.1⟩

/- ------------------------------------------------------------------
Redemption engine, from the redeemer module (the revision with receipt
verification and the wrapped-collateral ladder).  JS falsy string fields
(undefined, null, the empty string) are modelled by ""; the keccak topic
constants of ethers.utils.id are modelled as tagged strings (distinct by
collision-freeness of keccak256); on-chain calls are passed in as Except
oracles; the attempts loop consumes one oracle outcome per submitted
transaction.
------------------------------------------------------------------ -/

namespace Redeemer

def USDC_ADDRESS : String := "0x2791Bca1f2de4661ED88A30C99A7a9449Aa84174"

def EXECUTION_SUCCESS_TOPIC : String := "keccak256:ExecutionSuccess(bytes32,uint256)"

def EXECUTION_FAILURE_TOPIC : String := "keccak256:ExecutionFailure(bytes32,uint256)"

def USDC_TRANSFER_TOPIC : String := "keccak256:Transfer(address,address,uint256)"

inductive Status where
  | waiting
  | redeeming
  | redeemed
  | no_payout
  | error
deriving DecidableEq

structure Trade where
  conditionId : String
  tokenId : String
  negRisk : Option Bool
  marketEndTime : String
  action : String
  side : String
  size : ℚ
  price : ℚ
  question : String
deriving DecidableEq

structure Entry where
  conditionId : String
  tokenId : String
  negRisk : Bool
  marketEndTime : String
  action : String
  side : String
  size : ℚ
  price : ℚ
  question : String
  addedAt : String
  status : Status
  txHash : String
  redeemedAt : String
deriving DecidableEq

/-- The duplicate test of addPendingRedemption: an existing entry with a
truthy conditionId equal to the trade's, or a truthy tokenId equal to
the trade's. -/
def entryMatches (t : Trade) (r : Entry) : Bool :=
  (decide (r.conditionId ≠ "") && decide (r.conditionId = t.conditionId)) ||
  (decide (r.tokenId ≠ "") && decide (r.tokenId = t.tokenId))

/-- Port of addPendingRedemption: refuse a trade with neither id, skip when
a matching entry exists, otherwise push a waiting entry (negRisk defaults
to true when the trade does not carry the flag). -/
def addPendingRedemption (nowIso : String) (t : Trade) (q : List Entry) :
    List Entry :=
  if t.conditionId = "" ∧ t.tokenId = "" then q
  else if q.any (fun r => entryMatches t r) then q
  else q ++ [{ conditionId := t.conditionId, tokenId := t.tokenId,
               negRisk := t.negRisk.getD true,
               marketEndTime := t.marketEndTime, action := t.action,
               side := t.side, size := t.size, price := t.price,
               question := t.question, addedAt := nowIso,
               status := Status.waiting, txHash := "", redeemedAt := "" }]

structure LogEntry where
  address : String
  topics : List String
deriving DecidableEq

structure Receipt where
  status : Nat
  transactionHash : String
  logs : List LogEntry
deriving DecidableEq

/-- The toLowerCase normalization applied to addresses, on the character
list model of strings. -/
def lowerStr (s : String) : String := ⟨s.data.map Char.toLower⟩

/-- Port of verifyRedemptionReceipt: without a proxy wallet, trust the
receipt status; with one, scan the logs for the Safe's ExecutionSuccess
and ExecutionFailure topics (emitted by the proxy address) and a USDC
Transfer topic, then ExecutionFailure forces false, ExecutionSuccess
suffices for true (with or without the Transfer log).  The per-log
if/else of the source is equivalent to the three independent scans since
the topic constants are pairwise distinct. -/
def verifyRedemptionReceipt (receipt : Receipt) (safAddr : Option String) :
    Bool :=
  match safAddr with
  | none => receipt.status == 1
  | some sa =>
      let safeLower := lowerStr sa
      let hasExecutionSuccess := receipt.logs.any (fun l =>
        lowerStr l.address == safeLower &&
        l.topics.head? == some EXECUTION_SUCCESS_TOPIC)
      let hasExecutionFailure := receipt.logs.any (fun l =>
        lowerStr l.address == safeLower &&
        l.topics.head? == some EXECUTION_FAILURE_TOPIC)
      let hasUSDCTransfer := receipt.logs.any (fun l =>
        lowerStr l.address == lowerStr USDC_ADDRESS &&
        l.topics.head? == some USDC_TRANSFER_TOPIC)
      if hasExecutionFailure then false
      else if hasExecutionSuccess && hasUSDCTransfer then true
      else if hasExecutionSuccess then true
      else false

/-- Outcome of one ladder attempt: the submit-and-wait either threw, or
produced a receipt. -/
def attemptVerified (safAddr : Option String) (o : Except String Receipt) :
    Bool :=
  match o with
  | .ok receipt => verifyRedemptionReceipt receipt safAddr
  | .error _ => false

/-- The attempts loop of checkAndRedeem for one pending entry: each list
element is the outcome of one submitted transaction, in ladder order; the
loop stops at the first outcome whose receipt verifies.  Returns how many
transactions were submitted and whether the entry was redeemed. -/
def ladderRun (safAddr : Option String) :
    List (Except String Receipt) → Nat × Bool
  | [] => (0, false)
  | o :: rest =>
      match o with
      | .error _ =>
          let p := ladderRun safAddr rest
          (p.1 + 1, p.2)
      | .ok receipt =>
          if verifyRedemptionReceipt receipt safAddr then (1, true)
          else
            let p := ladderRun safAddr rest
            (p.1 + 1, p.2)

/-- Port of hasTokenBalance: a missing tokenId or a throwing balanceOf
read answers true; otherwise the read balance must be positive. -/
def hasTokenBalance (tokenId : String) (balRead : Except String Nat) : Bool :=
  if tokenId = "" then true
  else
    match balRead with
    | .ok balance => decide (0 < balance)
    | .error _ => true

inductive BalanceDecision where
  | markNoPayout
  | proceedToRedeem
deriving DecidableEq

/-- The balance check step of checkAndRedeem: a false hasTokenBalance marks
the entry no_payout, a true one proceeds to the redemption ladder. -/
def balanceGate (tokenId : String) (balRead : Except String Nat) :
    BalanceDecision :=
  if hasTokenBalance tokenId balRead then .proceedToRedeem else .markNoPayout

/-- Completed entries are pushed onto redemptionHistory (JS push appends at
the end). -/
def pushHistory (e : Entry) (h : List Entry) : List Entry := h ++ [e]

structure HistView where
  question : String
  side : String
  size : ℚ
  status : Status
  txHash : String
  redeemedAt : String
deriving DecidableEq

def histView (r : Entry) : HistView :=
  { question := r.question, side := r.side, size := r.size,
    status := r.status, txHash := r.txHash, redeemedAt := r.redeemedAt }

/-- The history field of getRedemptionStatus: redemptionHistory.slice(0, 20)
mapped to the view record. -/
def statusHistory (h : List Entry) : List HistView :=
  (h.take 20).map histView

end Redeemer

theorem Redeemer.addPending_skip (now : String) (t : Redeemer.Trade)
    (q : List Redeemer.Entry)
    (hany : q.any (fun r => Redeemer.entryMatches t r) = true) :
    Redeemer.addPendingRedemption now t q = q := by
  rw [Redeemer.addPendingRedemption]
  by_cases h1 : t.conditionId = "" ∧ t.tokenId = ""
  · rw [if_pos h1]
  · rw [if_neg h1, if_pos hany]

theorem Redeemer.addPending_push (now : String) (t : Redeemer.Trade)
    (q : List Redeemer.Entry) (hids : ¬(t.conditionId = "" ∧ t.tokenId = ""))
    (hany : ¬ q.any (fun r => Redeemer.entryMatches t r) = true) :
    Redeemer.addPendingRedemption now t q =
      q ++ [{ conditionId := t.conditionId, tokenId := t.tokenId,
              negRisk := t.negRisk.getD true,
              marketEndTime := t.marketEndTime, action := t.action,
              side := t.side, size := t.size, price := t.price,
              question := t.question, addedAt := now,
              status := Redeemer.Status.waiting, txHash := "",
              redeemedAt := "" }] := by
  rw [Redeemer.addPendingRedemption, if_neg hids, if_neg hany]

/-- C4: enqueueing the same trade twice leaves the pending queue at the
length one call produces, and any queue already holding a matching entry
(same truthy conditionId or same truthy tokenId) absorbs the append as a
no-op, so at most one pending entry exists per key. -/
theorem claim_C4_pending_dedup (t : Redeemer.Trade) (q : List Redeemer.Entry)
    (now1 now2 : String) :
    (Redeemer.addPendingRedemption now2 t
        (Redeemer.addPendingRedemption now1 t q)).length =
      (Redeemer.addPendingRedemption now1 t q).length ∧
    ((∃ r ∈ q, Redeemer.entryMatches t r = true) →
      Redeemer.addPendingRedemption now1 t q = q) := by
  constructor
  · by_cases hids : t.conditionId = "" ∧ t.tokenId = ""
    · have hq1 : Redeemer.addPendingRedemption now1 t q = q := by
        rw [Redeemer.addPendingRedemption, if_pos hids]
      rw [hq1, Redeemer.addPendingRedemption, if_pos hids]
    · by_cases hany : q.any (fun r => Redeemer.entryMatches t r) = true
      · rw [Redeemer.addPending_skip now1 t q hany,
          Redeemer.addPending_skip now2 t q hany]
      · have h1 := Redeemer.addPending_push now1 t q hids hany
        have hmatch : Redeemer.entryMatches t
            { conditionId := t.conditionId, tokenId := t.tokenId,
              negRisk := t.negRisk.getD true,
              marketEndTime := t.marketEndTime, action := t.action,
              side := t.side, size := t.size, price := t.price,
              question := t.question, addedAt := now1,
              status := Redeemer.Status.waiting, txHash := "",
              redeemedAt := "" } = true := by
          simp only [Redeemer.entryMatches, Bool.or_eq_true, Bool.and_eq_true,
            decide_eq_true_eq]
          rcases not_and_or.mp hids with h | h
          · exact Or.inl ⟨h, trivial⟩
          · exact Or.inr ⟨h, trivial⟩
        have hany2 : (Redeemer.addPendingRedemption now1 t q).any
            (fun r => Redeemer.entryMatches t r) = true := by
          rw [h1, List.any_append]
          simp [hmatch]
        rw [Redeemer.addPending_skip now2 t _ hany2]
  · rintro ⟨r, hr, hm⟩
    exact Redeemer.addPending_skip now1 t q (List.any_eq_true.mpr ⟨r, hr, hm⟩)

def c4trade : Redeemer.Trade :=
  { conditionId := "0xabc", tokenId := "123", negRisk := some true,
    marketEndTime := "2026-01-01T00:15:00Z", action := "BUY_YES",
    side := "YES", size := 5, price := 1 / 2, question := "BTC up?" }

def c4entry : Redeemer.Entry :=
  { conditionId := "0xabc", tokenId := "123", negRisk := true,
    marketEndTime := "2026-01-01T00:15:00Z", action := "BUY_YES",
    side := "YES", size := 5, price := 1 / 2, question := "BTC up?",
    addedAt := "t0", status := Redeemer.Status.waiting, txHash := "",
    redeemedAt := "" }

/-- Witness for C4: the double append of a concrete trade keeps the queue
at one entry, and appending it to a queue holding its entry is a no-op. -/
theorem claim_C4_pending_dedup_witness :
    (Redeemer.addPendingRedemption "t2" c4trade
        (Redeemer.addPendingRedemption "t1" c4trade [])).length =
      (Redeemer.addPendingRedemption "t1" c4trade []).length ∧
    Redeemer.addPendingRedemption "t1" c4trade [c4entry] = [c4entry] := by
  refine ⟨(claim_C4_pending_dedup c4trade [] "t1" "t2").1, ?_⟩
  exact (claim_C4_pending_dedup c4trade [c4entry] "t1" "t2").2
    ⟨c4entry, by simp, by decide⟩

/-- C10: the redemption tick classifies an entry as no_payout from the
balance check exactly when the entry has a tokenId and the ERC1155
balanceOf read completed successfully with zero; a missing tokenId or a
throwing read makes hasTokenBalance answer true, so the engine proceeds
to attempt redemption. -/
theorem claim_C10_balance_no_payout (tokenId : String)
    (balRead : Except String Nat) :
    (Redeemer.balanceGate tokenId balRead =
        Redeemer.BalanceDecision.markNoPayout ↔
      (tokenId ≠ "" ∧ balRead = Except.ok 0)) ∧
    (tokenId = "" → Redeemer.hasTokenBalance tokenId balRead = true) ∧
    (∀ msg, balRead = Except.error msg →
      Redeemer.hasTokenBalance tokenId balRead = true) := by
  refine ⟨?_, ?_, ?_⟩
  · by_cases ht : tokenId = ""
    · simp [Redeemer.balanceGate, Redeemer.hasTokenBalance, ht]
    · cases balRead with
      | error msg => simp [Redeemer.balanceGate, Redeemer.hasTokenBalance, ht]
      | ok b =>
          cases b with
          | zero => simp [Redeemer.balanceGate, Redeemer.hasTokenBalance, ht]
          | succ k => simp [Redeemer.balanceGate, Redeemer.hasTokenBalance, ht]
  · intro ht
    simp [Redeemer.hasTokenBalance, ht]
  · intro msg hm
    subst hm
    simp [Redeemer.hasTokenBalance]

/-- Witness for C10: a zero balance on a real tokenId marks no_payout; a
missing tokenId and a throwing read both answer true. -/
theorem claim_C10_balance_no_payout_witness :
    Redeemer.balanceGate "123" (Except.ok 0) =
      Redeemer.BalanceDecision.markNoPayout ∧
    Redeemer.hasTokenBalance "" (Except.ok 0) = true ∧
    Redeemer.hasTokenBalance "123" (Except.error "rpc down") = true := by
  refine ⟨(claim_C10_balance_no_payout "123" (Except.ok 0)).1.mpr
      ⟨by decide, rfl⟩, ?_, ?_⟩
  · exact (claim_C10_balance_no_payout "" (Except.ok 0)).2.1 rfl
  · exact (claim_C10_balance_no_payout "123"
      (Except.error "rpc down")).2.2 "rpc down" rfl

/-- C9 (amended): the redemption history list is unbounded: a completed
entry is appended at the end and nothing is ever evicted; the status
endpoint exposes the FIRST min(20, n) entries, i.e. the 20 oldest
completed ones, so once twenty entries exist the exposed window never
changes again. -/
theorem claim_C9_history_ring (h : List Redeemer.Entry) (e : Redeemer.Entry) :
    (Redeemer.pushHistory e h).length = h.length + 1 ∧
    (Redeemer.pushHistory e h).take h.length = h ∧
    (Redeemer.statusHistory h).length = min 20 h.length ∧
    Redeemer.statusHistory (Redeemer.pushHistory e h) =
      Redeemer.statusHistory h ++
        (if h.length < 20 then [Redeemer.histView e] else []) := by
  refine ⟨by simp [Redeemer.pushHistory], ?_, by simp [Redeemer.statusHistory], ?_⟩
  · simp [Redeemer.pushHistory, List.take_left]
  · simp only [Redeemer.statusHistory, Redeemer.pushHistory]
    rw [List.take_append_eq_append_take]
    by_cases hlen : h.length < 20
    · have h1 : ([e].take (20 - h.length)) = [e] := by
        cases hn : 20 - h.length with
        | zero => omega
        | succ k => simp
      rw [h1, if_pos hlen, List.map_append]
      simp
    · have h0 : 20 - h.length = 0 := by omega
      rw [h0, if_neg hlen]
      simp

def c9entry (i : ℕ) : Redeemer.Entry :=
  { conditionId := "0xc" ++ toString i, tokenId := "", negRisk := true,
    marketEndTime := "2026-01-01T00:15:00Z", action := "BUY_YES",
    side := "YES", size := 5, price := 1 / 2, question := "q" ++ toString i,
    addedAt := "t0", status := Redeemer.Status.redeemed, txHash := "0xtx",
    redeemedAt := "t1" }

def c9hist : List Redeemer.Entry :=
  (List.range 21).foldl (fun h i => Redeemer.pushHistory (c9entry i) h) []

/-- C9 counterexample: after 21 completed entries the history list holds
21 entries (not bounded at 20), and the exposed slice is the first 20,
which omits the most recently completed entry (number 20) and equals the
20 oldest ones. -/
theorem claim_C9_history_ring_counterexample :
    c9hist.length = 21 ∧ ¬ (c9hist.length ≤ 20) ∧
    Redeemer.histView (c9entry 20) ∉ Redeemer.statusHistory c9hist ∧
    Redeemer.statusHistory c9hist =
      (List.range 20).map (fun i => Redeemer.histView (c9entry i)) := by
  decide

/-- C5: within one redemption tick, the fallback ladder stops at the first
attempt whose receipt verifies: with any run of unverified attempts before
it, the verified attempt is the last transaction submitted for the entry
(pre.length + 1 submissions, no later rung runs); a receipt carrying an
ExecutionFailure log emitted by the proxy address never verifies; and an
attempt whose receipt fails verification is followed by the next rung. -/
theorem claim_C5_ladder_first_success (safAddr : Option String)
    (pre post : List (Except String Redeemer.Receipt))
    (receipt : Redeemer.Receipt) :
    ((∀ o ∈ pre, Redeemer.attemptVerified safAddr o = false) →
      Redeemer.verifyRedemptionReceipt receipt safAddr = true →
      Redeemer.ladderRun safAddr (pre ++ Except.ok receipt :: post) =
        (pre.length + 1, true)) ∧
    (∀ sa (r2 : Redeemer.Receipt),
      (∃ l ∈ r2.logs, Redeemer.lowerStr l.address = Redeemer.lowerStr sa ∧
        l.topics.head? = some Redeemer.EXECUTION_FAILURE_TOPIC) →
      Redeemer.verifyRedemptionReceipt r2 (some sa) = false) ∧
    (∀ (r2 : Redeemer.Receipt) (rest : List (Except String Redeemer.Receipt)),
      Redeemer.verifyRedemptionReceipt r2 safAddr = false →
      Redeemer.ladderRun safAddr (Except.ok r2 :: rest) =
        ((Redeemer.ladderRun safAddr rest).1 + 1,
         (Redeemer.ladderRun safAddr rest).2)) := by
  refine ⟨?_, ?_, ?_⟩
  · intro hpre hver
    induction pre with
    | nil => simp [Redeemer.ladderRun, hver]
    | cons o rest2 ih =>
        have ho := hpre o (by simp)
        have ihr := ih (fun x hx => hpre x (List.mem_cons_of_mem _ hx))
        cases o with
        | error msg =>
            simp only [List.cons_append, Redeemer.ladderRun, ihr]
            simp [ihr]
        | ok r =>
            have hrv : Redeemer.verifyRedemptionReceipt r safAddr = false := by
              simpa [Redeemer.attemptVerified] using ho
            simp only [List.cons_append, Redeemer.ladderRun, hrv,
              Bool.false_eq_true, if_false, ihr]
            simp [ihr]
  · rintro sa r2 ⟨l, hl, haddr, htop⟩
    have hfail : (r2.logs.any (fun l =>
        Redeemer.lowerStr l.address == Redeemer.lowerStr sa &&
        l.topics.head? == some Redeemer.EXECUTION_FAILURE_TOPIC)) = true :=
      List.any_eq_true.mpr ⟨l, hl, by simp [haddr, htop]⟩
    simp [Redeemer.verifyRedemptionReceipt, hfail]
  · intro r2 rest hf
    simp [Redeemer.ladderRun, hf]

def c5failReceipt : Redeemer.Receipt :=
  { status := 1, transactionHash := "0xtx1",
    logs := [{ address := "0xsafe01",
               topics := [Redeemer.EXECUTION_FAILURE_TOPIC] }] }

def c5okReceipt : Redeemer.Receipt :=
  { status := 1, transactionHash := "0xtx2",
    logs := [{ address := "0xsafe01",
               topics := [Redeemer.EXECUTION_SUCCESS_TOPIC] },
             { address := Redeemer.USDC_ADDRESS,
               topics := [Redeemer.USDC_TRANSFER_TOPIC] }] }

/-- Witness for C5: behind the proxy 0xSafe01, the neg-risk attempt mines
but carries ExecutionFailure, so the ladder submits the CTF rung and stops
there: two submissions, entry redeemed. -/
theorem claim_C5_ladder_first_success_witness :
    Redeemer.verifyRedemptionReceipt c5failReceipt (some "0xSafe01") = false ∧
    Redeemer.ladderRun (some "0xSafe01")
      [Except.ok c5failReceipt, Except.ok c5okReceipt] = (2, true) := by
  have hfail := (claim_C5_ladder_first_success (some "0xSafe01") [] []
      c5okReceipt).2.1 "0xSafe01" c5failReceipt
    ⟨{ address := "0xsafe01", topics := [Redeemer.EXECUTION_FAILURE_TOPIC] },
      by simp [c5failReceipt], by decide, by decide⟩
  refine ⟨hfail, ?_⟩
  have h1 := (claim_C5_ladder_first_success (some "0xSafe01")
      [Except.ok c5failReceipt] [] c5okReceipt).1
    (by
      intro o ho
      simp at ho
      subst ho
      simpa [Redeemer.attemptVerified] using hfail)
    (by decide)
  simpa using h1

/- ------------------------------------------------------------------
Model-scored decision policy, from the aiEngine revision whose only
post-parse normalization is the LOW-confidence rule (getAiPrediction).
The network pipeline (fetch, response.json(), the brace-regex match on
the content, JSON.parse) is passed in as one outcome oracle; the enrich
step that spreads extra display fields over the decision is dropped
(write-only with respect to action and confidence).
------------------------------------------------------------------ -/

namespace AiPolicy

structure Decision where
  action : String
  confidence : String
  pattern : String
  reasoning : String
deriving DecidableEq

inductive FetchOutcome where
  | netError (msg : String)
  | noJson
  | parseError (msg : String)
  | parsed (d : Decision)
deriving DecidableEq

/-- Port of getAiPrediction: missing key and every failure mode return a
SKIP/LOW decision; a parsed decision is passed through with the single
rule that LOW confidence forces action SKIP (JSON.parse throwing lands in
the same catch as a network error). -/
def getAiPrediction (apiKey : Option String) (outcome : FetchOutcome) :
    Decision :=
  match apiKey with
  | none =>
      { action := "SKIP", confidence := "LOW", pattern := "none",
        reasoning := "API key not configured" }
  | some _ =>
      match outcome with
      | .netError msg =>
          { action := "SKIP", confidence := "LOW", pattern := "none",
            reasoning := msg }
      | .noJson =>
          { action := "SKIP", confidence := "LOW", pattern := "none",
            reasoning := "Invalid response" }
      | .parseError msg =>
          { action := "SKIP", confidence := "LOW", pattern := "none",
            reasoning := msg }
      | .parsed d =>
          if d.confidence = "LOW" then { d with action := "SKIP" } else d

end AiPolicy

/-- C6 counterexample: this policy revision does not normalize unknown
actions: a parsed decision with action HOLD at MEDIUM confidence is
returned with action HOLD, outside the BUY_YES / BUY_NO / SKIP set, and
an unknown confidence string likewise passes through unchanged. -/
theorem claim_C6_ai_decision_normalization_counterexample :
    (AiPolicy.getAiPrediction (some "k") (AiPolicy.FetchOutcome.parsed
      { action := "HOLD", confidence := "MEDIUM", pattern := "p",
        reasoning := "r" })).action = "HOLD" ∧
    "HOLD" ∉ (["BUY_YES", "BUY_NO", "SKIP"] : List String) ∧
    (AiPolicy.getAiPrediction (some "k") (AiPolicy.FetchOutcome.parsed
      { action := "BUY_YES", confidence := "MAYBE", pattern := "p",
        reasoning := "r" })).confidence = "MAYBE" ∧
    "MAYBE" ∉ (["LOW", "MEDIUM", "HIGH"] : List String) := by
  decide

/-- C6 (amended): every failure mode of getAiPrediction (missing API key,
thrown fetch or body parse, content without a JSON object) yields a SKIP
decision with LOW confidence rather than a thrown error, and a parsed
LOW confidence forces action SKIP; but a parsed decision is otherwise
passed through unchanged: unknown actions and confidence labels are NOT
normalized to SKIP / LOW in this revision. -/
theorem claim_C6_ai_decision_normalization (apiKey : Option String)
    (outcome : AiPolicy.FetchOutcome) :
    (apiKey = none → AiPolicy.getAiPrediction apiKey outcome =
      { action := "SKIP", confidence := "LOW", pattern := "none",
        reasoning := "API key not configured" }) ∧
    (∀ k msg, apiKey = some k →
      outcome = AiPolicy.FetchOutcome.netError msg →
      AiPolicy.getAiPrediction apiKey outcome =
        { action := "SKIP", confidence := "LOW", pattern := "none",
          reasoning := msg }) ∧
    (∀ k, apiKey = some k → outcome = AiPolicy.FetchOutcome.noJson →
      AiPolicy.getAiPrediction apiKey outcome =
        { action := "SKIP", confidence := "LOW", pattern := "none",
          reasoning := "Invalid response" }) ∧
    (∀ k msg, apiKey = some k →
      outcome = AiPolicy.FetchOutcome.parseError msg →
      (AiPolicy.getAiPrediction apiKey outcome).action = "SKIP" ∧
      (AiPolicy.getAiPrediction apiKey outcome).confidence = "LOW") ∧
    (∀ k d, apiKey = some k → outcome = AiPolicy.FetchOutcome.parsed d →
      (AiPolicy.getAiPrediction apiKey outcome).confidence = d.confidence ∧
      (AiPolicy.getAiPrediction apiKey outcome).action =
        (if d.confidence = "LOW" then "SKIP" else d.action)) := by
  refine ⟨?_, ?_, ?_, ?_, ?_⟩
  · intro h
    subst h
    rfl
  · intro k msg hk ho
    subst hk
    subst ho
    rfl
  · intro k hk ho
    subst hk
    subst ho
    rfl
  · intro k msg hk ho
    subst hk
    subst ho
    exact ⟨rfl, rfl⟩
  · intro k d hk ho
    subst hk
    subst ho
    constructor
    · by_cases hc : d.confidence = "LOW"
      · simp [AiPolicy.getAiPrediction, hc]
      · simp [AiPolicy.getAiPrediction, hc]
    · by_cases hc : d.confidence = "LOW"
      · simp [AiPolicy.getAiPrediction, hc]
      · simp [AiPolicy.getAiPrediction, hc]

/-- Witness for amended C6: missing key, missing JSON and a parsed LOW
decision all come back as SKIP at concrete inputs. -/
theorem claim_C6_ai_decision_normalization_witness :
    AiPolicy.getAiPrediction none AiPolicy.FetchOutcome.noJson =
      { action := "SKIP", confidence := "LOW", pattern := "none",
        reasoning := "API key not configured" } ∧
    AiPolicy.getAiPrediction (some "k") AiPolicy.FetchOutcome.noJson =
      { action := "SKIP", confidence := "LOW", pattern := "none",
        reasoning := "Invalid response" } ∧
    (AiPolicy.getAiPrediction (some "k") (AiPolicy.FetchOutcome.parsed
      { action := "BUY_NO", confidence := "LOW", pattern := "p",
        reasoning := "r" })).action = "SKIP" := by
  refine ⟨(claim_C6_ai_decision_normalization none
      AiPolicy.FetchOutcome.noJson).1 rfl,
    (claim_C6_ai_decision_normalization (some "k")
      AiPolicy.FetchOutcome.noJson).2.2.1 "k" rfl rfl, ?_⟩
  have h := (claim_C6_ai_decision_normalization (some "k")
      (AiPolicy.FetchOutcome.parsed
        { action := "BUY_NO", confidence := "LOW", pattern := "p",
          reasoning := "r" })).2.2.2.2 "k"
    { action := "BUY_NO", confidence := "LOW", pattern := "p",
      reasoning := "r" } rfl rfl
  rw [h.2]
  decide
